import Mathlib

/-!
Verification of the meeting-processing pipeline of cantomeet-notes.

The pipeline operations live in `src/frontend/src/services/api/tasks.ts`
(`mockDataService`): an in-memory store of `ProcessingTask`s and `Meeting`s,
mutated by `createTask`, three scheduled `setTimeout` callbacks simulating
the processing progression, `finalizeTask`, and read operations
(`getTasks`, `getTask`, `getMeetings`, `getMeeting`).  The data model is
`src/frontend/src/types` (`ProcessingTask`, `Meeting`, ...).

JavaScript `Date.now()` is modelled by a strictly increasing natural-number
clock carried in the state; the template-string interpolation
`` `task_${Date.now()}` `` is modelled by a decimal printer `natToStr`.
-/

namespace CantoMeet

/-! ### Decimal printing of natural numbers
Models the JavaScript number-to-string conversion used in template strings
such as `` `task_${Date.now()}` ``.  Defined with explicit fuel so that it
is structurally recursive and computable by the kernel. -/

def digitChar : Nat → Char
  | 0 => '0' | 1 => '1' | 2 => '2' | 3 => '3' | 4 => '4'
  | 5 => '5' | 6 => '6' | 7 => '7' | 8 => '8' | _ => '9'

def natDigitsAux : Nat → Nat → List Nat
  | 0, n => [n]
  | fuel + 1, n => if n ≤ 9 then [n] else natDigitsAux fuel (n / 10) ++ [n % 10]

def natDigits (n : Nat) : List Nat := natDigitsAux n n

def natToStr (n : Nat) : String := ⟨(natDigits n).map digitChar⟩

/-- Decoding a big-endian digit list back into a number. -/
def undigits (ds : List Nat) : Nat := ds.foldl (fun a d => 10 * a + d) 0

/-! ### Data model (src/frontend/src/types) -/

/-- `ProcessingTask.status` union:
`'queued' | 'processing' | 'review_ready' | 'completed' | 'failed'`. -/
inductive TaskStatus
  | queued | processing | review_ready | completed | failed
deriving DecidableEq, Repr

/-- The TypeScript literal of a `TaskStatus`, as written in the union type. -/
def TaskStatus.name : TaskStatus → String
  | .queued => "queued"
  | .processing => "processing"
  | .review_ready => "review_ready"
  | .completed => "completed"
  | .failed => "failed"

structure ProcessingTask where
  id : String
  workspaceId : String
  filename : String
  fileSize : Nat
  status : TaskStatus
  progress : Nat
  logs : List String
  startTime : String
deriving DecidableEq, Repr

inductive Sentiment
  | neutral | positive | negative | concerned
deriving DecidableEq, Repr

structure Speaker where
  id : String
  name : String
  role : String
  avatar : String
deriving DecidableEq, Repr

structure TranscriptSegment where
  id : String
  speakerId : String
  timestamp : String
  text : String
  sentiment : Option Sentiment
deriving DecidableEq, Repr

inductive ActionItemStatus
  | pending | in_progress | completed
deriving DecidableEq, Repr

inductive Priority
  | high | medium | low
deriving DecidableEq, Repr

structure ActionItem where
  id : String
  description : String
  owner : String
  dueDate : String
  status : ActionItemStatus
  priority : Option Priority
  relatedSegmentId : String
  reminder : Option String
deriving DecidableEq, Repr

structure KeyDecision where
  id : String
  description : String
  relatedSegmentId : String
deriving DecidableEq, Repr

structure MeetingSummary where
  executiveSummary : Option String
  detailedMinutes : Option String
  decisions : Option (List KeyDecision)
  actionItems : Option (List ActionItem)
deriving DecidableEq, Repr

inductive MeetingStatus
  | uploaded | transcribing | summarizing | completed | failed | scheduled
deriving DecidableEq, Repr

structure Meeting where
  id : String
  workspaceId : String
  title : String
  date : String
  duration : String
  participants : Option (List Speaker)
  tags : Option (List String)
  transcript : Option (List TranscriptSegment)
  summary : Option MeetingSummary
  hubSpotSynced : Option Bool
  status : MeetingStatus
  template : Option String
deriving DecidableEq, Repr

/-! ### Mock store state (src/frontend/src/services/api/tasks.ts)

The module-level mutable variables `mockTasks` and `mockMeetings`, plus the
`setTimeout` callbacks scheduled by `createTask` (delays 2s, 8s, 15s, hence
firing in order for each task) and the `Date.now()` clock. -/

/-- A scheduled `setTimeout` callback: the task id it closes over and which
of the three progression callbacks it is (1, 2 or 3, in delay order). -/
structure Timer where
  taskId : String
  stage : Nat
deriving DecidableEq, Repr

structure MockState where
  tasks : List ProcessingTask
  meetings : List Meeting
  pending : List Timer
  now : Nat
deriving DecidableEq, Repr

/-- `` `task_${Date.now()}` `` -/
def mkTaskId (n : Nat) : String := "task_" ++ natToStr n

/-- `` `m_${Date.now()}` `` -/
def mkMeetingId (n : Nat) : String := "m_" ++ natToStr n

/-- `` `[${new Date().toLocaleTimeString()}] <msg>` `` — the timestamp
rendering is modelled by the decimal clock value. -/
def logEntry (now : Nat) (msg : String) : String :=
  "[" ++ natToStr now ++ "] " ++ msg

/-! ### Operations of `mockDataService` -/

/-- `getTasks`: `mockTasks.filter((t) => t.workspaceId === workspaceId)` -/
def getTasks (workspaceId : String) (s : MockState) : List ProcessingTask :=
  s.tasks.filter (fun t => t.workspaceId == workspaceId)

/-- `getTask`: `mockTasks.find((t) => t.id === id)` -/
def getTask (id : String) (s : MockState) : Option ProcessingTask :=
  s.tasks.find? (fun t => t.id == id)

/-- `getMeetings`: `mockMeetings.filter((m) => m.workspaceId === workspaceId)` -/
def getMeetings (workspaceId : String) (s : MockState) : List Meeting :=
  s.meetings.filter (fun m => m.workspaceId == workspaceId)

/-- `getMeeting`: `mockMeetings.find((m) => m.id === id)` -/
def getMeeting (id : String) (s : MockState) : Option Meeting :=
  s.meetings.find? (fun m => m.id == id)

/-- `createTask`: builds the new task, pushes it onto `mockTasks`, and
schedules the three progression callbacks. -/
def createTask (workspaceId filename : String) (fileSize : Nat) (s : MockState) :
    ProcessingTask × MockState :=
  let newTask : ProcessingTask :=
    { id := mkTaskId s.now
      workspaceId := workspaceId
      filename := filename
      fileSize := fileSize
      status := .queued
      progress := 0
      logs := [logEntry s.now "File uploaded successfully"]
      startTime := natToStr s.now }
  (newTask,
    { tasks := s.tasks ++ [newTask]
      meetings := s.meetings
      pending := s.pending ++ [⟨newTask.id, 1⟩, ⟨newTask.id, 2⟩, ⟨newTask.id, 3⟩]
      now := s.now + 1 })

/-- The body of the `setTimeout` callback numbered `stage`, applied to the
task it found (source lines 217–244). -/
def stageApply (stage : Nat) (now : Nat) (t : ProcessingTask) : ProcessingTask :=
  match stage with
  | 1 => { t with
      status := .processing
      progress := 10
      logs := t.logs ++ [logEntry now "Starting transcription..."] }
  | 2 => { t with
      progress := 50
      logs := t.logs ++ [logEntry now "Transcription 50% complete"] }
  | _ => { t with
      progress := 100
      status := .review_ready
      logs := t.logs ++
        [logEntry now "Transcription complete",
         logEntry now "Starting summarization...",
         logEntry now "Summarization complete",
         logEntry now "Ready for review"] }

/-- Replace the first element satisfying `p` by its image under `f`
(models `mockTasks.find(...)` followed by in-place mutation). -/
def updateFirst (p : α → Bool) (f : α → α) : List α → List α
  | [] => []
  | x :: xs => if p x then f x :: xs else x :: updateFirst p f xs

/-- Remove the first element satisfying `p`. -/
def removeFirst (p : α → Bool) : List α → List α
  | [] => []
  | x :: xs => if p x then xs else x :: removeFirst p xs

/-- Fire the earliest still-pending `setTimeout` callback scheduled for
`taskId` (earliest because the three callbacks have increasing delays).
If none is pending, nothing happens; if the task has been removed in the
meantime the callback's `find` misses and the callback is a no-op. -/
def fireTimer (taskId : String) (s : MockState) : MockState :=
  match s.pending.find? (fun p => p.taskId == taskId) with
  | none => s
  | some tm =>
    { tasks := updateFirst (fun t => t.id == taskId) (stageApply tm.stage s.now) s.tasks
      meetings := s.meetings
      pending := removeFirst (fun p => p.taskId == taskId) s.pending
      now := s.now + 1 }

structure FinalizeData where
  title : String
  template : String
  tags : List String
deriving DecidableEq, Repr

/-- Mock speakers attached to every finalized meeting (source lines 70–74). -/
def MOCK_SPEAKERS : List Speaker :=
  [ { id := "u1", name := "Christina Lau", role := "Product Lead",
      avatar := "https://picsum.photos/id/1012/200/200" },
    { id := "alex", name := "Alex Wong", role := "CTO",
      avatar := "https://picsum.photos/id/1025/200/200" },
    { id := "sarah", name := "Sarah Ye", role := "Product Manager",
      avatar := "https://picsum.photos/id/1011/200/200" } ]

/-- `finalizeTask` (source lines 253–294): throws `'Task not found'` when no
task has the given id; otherwise builds the meeting, pushes it onto
`mockMeetings`, and removes the task via
`mockTasks.filter((t) => t.id !== taskId)`. -/
def finalizeTask (taskId : String) (data : FinalizeData) (s : MockState) :
    Except String (String × MockState) :=
  match s.tasks.find? (fun t => t.id == taskId) with
  | none => .error "Task not found"
  | some task =>
    let newMeeting : Meeting :=
      { id := mkMeetingId s.now
        workspaceId := task.workspaceId
        title := data.title
        date := natToStr s.now
        duration := "45 mins"
        participants := some MOCK_SPEAKERS
        tags := some data.tags
        transcript := some
          [ { id := "seg_1", speakerId := "u1", timestamp := "00:00",
              text := "This is a sample transcript generated from the uploaded audio file.",
              sentiment := some .neutral } ]
        summary := some
          { executiveSummary := some ("Meeting summary for " ++ data.title)
            detailedMinutes := none
            decisions := some []
            actionItems := some [] }
        hubSpotSynced := some false
        status := .completed
        template := some data.template }
    .ok (newMeeting.id,
      { tasks := s.tasks.filter (fun t => t.id != taskId)
        meetings := s.meetings ++ [newMeeting]
        pending := s.pending
        now := s.now + 1 })

/-- `createMeetingFromUpload` (source lines 305–312). -/
def createMeetingFromUpload (workspaceId filename : String) (fileSize : Nat)
    (s : MockState) : String × MockState :=
  let r := createTask workspaceId filename fileSize s
  (r.1.id, r.2)

/-- `tasksApi.get` on the mock path (tasks.ts lines 27–34): looks the task
up and throws `'Task not found'` when absent. -/
def tasksApiGet (id : String) (s : MockState) : Except String ProcessingTask :=
  match getTask id s with
  | none => .error "Task not found"
  | some t => .ok t

def exceptIsOk : Except ε α → Bool
  | .ok _ => true
  | .error _ => false

/-! ### Initial store contents (source lines 77–194)

The module-level clock origin models the value of `Date.now()` when the
page loads; the two seeded tasks and one seeded meeting are translated
verbatim. -/

def initNow : Nat := 1700000000000

def initialTask1 : ProcessingTask :=
  { id := "task_1"
    workspaceId := "ws_1"
    filename := "Q3_Product_Review_2024.m4a"
    fileSize := 45 * 1024 * 1024
    status := .review_ready
    progress := 100
    logs :=
      [ "[10:30:15] File uploaded successfully",
        "[10:30:20] Starting transcription...",
        "[10:35:45] Transcription 50% complete",
        "[10:41:20] Transcription complete",
        "[10:41:25] Starting summarization...",
        "[10:43:10] Summarization complete",
        "[10:43:15] Ready for review" ]
    startTime := natToStr (initNow - 15 * 60 * 1000) }

def initialTask2 : ProcessingTask :=
  { id := "task_2"
    workspaceId := "ws_1"
    filename := "Weekly_Sync_Meeting.m4a"
    fileSize := 28 * 1024 * 1024
    status := .processing
    progress := 65
    logs :=
      [ "[14:20:10] File uploaded successfully",
        "[14:20:15] Starting transcription...",
        "[14:25:30] Transcription 30% complete",
        "[14:30:45] Transcription 60% complete",
        "[14:32:20] Transcription 65% complete..." ]
    startTime := natToStr (initNow - 12 * 60 * 1000) }

def initialMeeting : Meeting :=
  { id := "m_20241024_q3_review"
    workspaceId := "ws_1"
    title := "Q3 Product Roadmap Review & Tech Infra"
    date := "2024-10-24T10:30:00"
    duration := "45 mins"
    participants := some MOCK_SPEAKERS
    tags := some ["Strategic", "Engineering", "Budget"]
    transcript := some
      [ { id := "seg_1", speakerId := "sarah", timestamp := "00:05",
          text := "Hello everyone, let\x27s start. 今日主要過一次 Q3 嘅 Roadmap 同埋 review 返上個禮拜個 usage spike 嘅問題。",
          sentiment := some .neutral },
        { id := "seg_2", speakerId := "alex", timestamp := "00:24",
          text := "Right. 关于 usage spike 嗰度，Backend check 過 logs，發現係 Monday morning 9點幾嗰阵，Concurrent users 突然升咗 3 倍。我哋個 AWS RDS instance 顶唔顺，latency 飙到去 2000ms。",
          sentiment := some .concerned },
        { id := "seg_3", speakerId := "u1", timestamp := "00:45",
          text := "Okay, 咁我哋有咩 solution？係咪要 scale up 個 database？",
          sentiment := some .neutral },
        { id := "seg_4", speakerId := "alex", timestamp := "01:02",
          text := "我哋有兩個 options：一個係 Read Replicas，另一個係 Sharding。Read Replicas 比較簡單，可以 immediate fix，但係 Sharding 就 long-term solution。",
          sentiment := some .neutral } ]
    summary := some
      { executiveSummary := some "The team discussed the Q3 product roadmap and addressed a recent system latency spike. The spike was caused by a 3x increase in concurrent users on Monday morning, pushing AWS RDS latency to 2000ms. Two solutions were proposed: Read Replicas for immediate relief, and Sharding for long-term scalability."
        detailedMinutes := none
        decisions := some
          [ { id := "dec_1",
              description := "Implement AWS RDS Read Replicas as immediate solution for latency issues",
              relatedSegmentId := "seg_4" },
            { id := "dec_2",
              description := "Keep Smart Search feature release on schedule for Q3",
              relatedSegmentId := "seg_1" } ]
        actionItems := some
          [ { id := "act_1",
              description := "Set up AWS RDS Read Replicas by next Wednesday",
              owner := "Alex Wong",
              dueDate := "2024-10-30",
              status := .in_progress,
              priority := some .high,
              relatedSegmentId := "seg_4",
              reminder := none },
            { id := "act_2",
              description := "Reply to customer support inquiry about feature request",
              owner := "Sarah Ye",
              dueDate := "2024-10-26",
              status := .pending,
              priority := some .medium,
              relatedSegmentId := "seg_1",
              reminder := none } ] }
    hubSpotSynced := some false
    status := .completed
    template := some "Product Review" }

def initialState : MockState :=
  { tasks := [initialTask1, initialTask2]
    meetings := [initialMeeting]
    pending := []
    now := initNow }

/-! ### Reachable states

One step of the system: a `createTask` call (from the upload boundary), one
scheduled `setTimeout` callback firing, or a successful `finalizeTask` call.
A `finalizeTask` that throws mutates nothing, and the read operations are
pure, so neither changes the state. -/

inductive Step : MockState → MockState → Prop
  | create (workspaceId filename : String) (fileSize : Nat) (s : MockState) :
      Step s (createTask workspaceId filename fileSize s).2
  | timer (taskId : String) (s : MockState) :
      Step s (fireTimer taskId s)
  | finalize (taskId : String) (data : FinalizeData) (s : MockState)
      (meetingId : String) (s' : MockState)
      (h : finalizeTask taskId data s = .ok (meetingId, s')) :
      Step s s'

def Reachable (s : MockState) : Prop :=
  Relation.ReflTransGen Step initialState s


/-- The stages still pending for a task id, in firing order. -/
def pendingFor (s : MockState) (tid : String) : List Nat :=
  (s.pending.filter (fun p => p.taskId == tid)).map (fun p => p.stage)

/-- Discipline of the three `setTimeout` callbacks scheduled by
`createTask`: the stages still pending for a task determine where in the
simulated progression the task stands.  Tasks with no pending callbacks
(the seeded tasks, or tasks whose callbacks have all fired) are
unconstrained. -/
def PendingOk (l : List Nat) (t : ProcessingTask) : Prop :=
  (l = [1, 2, 3] ∧ t.status = .queued ∧ t.progress = 0) ∨
  (l = [2, 3] ∧ t.status = .processing ∧ t.progress = 10) ∨
  (l = [3] ∧ t.status = .processing ∧ t.progress = 50) ∨
  l = []

structure Inv (s : MockState) : Prop where
  taskIds : ∀ t ∈ s.tasks, ∃ k, k < s.now ∧ t.id = mkTaskId k
  nodupIds : (s.tasks.map (fun t => t.id)).Nodup
  pendIds : ∀ p ∈ s.pending, ∃ k, k < s.now ∧ p.taskId = mkTaskId k
  pendOk : ∀ t ∈ s.tasks, PendingOk (pendingFor s t.id) t
  progLe : ∀ t ∈ s.tasks, t.progress ≤ 100
  statOk : ∀ t ∈ s.tasks,
    t.status = .queued ∨ t.status = .processing ∨ t.status = .review_ready

/-- The new task built by `createTask`, spelled out. -/
def newTaskOf (ws fn : String) (sz : Nat) (s : MockState) : ProcessingTask :=
  { id := mkTaskId s.now
    workspaceId := ws
    filename := fn
    fileSize := sz
    status := .queued
    progress := 0
    logs := [logEntry s.now "File uploaded successfully"]
    startTime := natToStr s.now }

/-- The meeting built by `finalizeTask` out of the found task and the
user-supplied metadata, spelled out. -/
def newMeetingOf (data : FinalizeData) (task : ProcessingTask) (s : MockState) : Meeting :=
  { id := mkMeetingId s.now
    workspaceId := task.workspaceId
    title := data.title
    date := natToStr s.now
    duration := "45 mins"
    participants := some MOCK_SPEAKERS
    tags := some data.tags
    transcript := some
      [ { id := "seg_1", speakerId := "u1", timestamp := "00:00",
          text := "This is a sample transcript generated from the uploaded audio file.",
          sentiment := some .neutral } ]
    summary := some
      { executiveSummary := some ("Meeting summary for " ++ data.title)
        detailedMinutes := none
        decisions := some []
        actionItems := some [] }
    hubSpotSynced := some false
    status := .completed
    template := some data.template }

/-- The metadata of the finalize scenario in §8 of the spec. -/
def finSync : FinalizeData := ⟨"Sync", "General", []⟩

/-- The state reached by finalizing the seeded task `task_1` in the initial
state: `task_1` deleted, the generated meeting appended. -/
def fin1State : MockState :=
  { tasks := [initialTask2]
    meetings := [initialMeeting, newMeetingOf finSync initialTask1 initialState]
    pending := []
    now := initNow + 1 }

/-- Following the spec §4.3 wording: the six state names of the claimed
state machine (`QUEUED, TRANSCRIBING, SUMMARIZING, REVIEW_READY, COMPLETED,
FAILED`), for comparison with the status union of the code. -/
def specSection43StateNames : List String :=
  ["QUEUED", "TRANSCRIBING", "SUMMARIZING", "REVIEW_READY", "COMPLETED", "FAILED"]

/-- Following the spec §4.3 wording: the same six states, written in the
lowercase literal convention that the code's status union uses (the code
writes `QUEUED` as `'queued'`, `REVIEW_READY` as `'review_ready'`, ...). -/
def specStateNamesAsLiterals : List String :=
  ["queued", "transcribing", "summarizing", "review_ready", "completed", "failed"]

/-! ### Theorems -/

theorem undigits_concat (ds : List Nat) (d : Nat) :
    undigits (ds ++ [d]) = 10 * undigits ds + d := by
  simp [undigits, List.foldl_append]

theorem undigits_natDigitsAux (fuel n : Nat) (h : n ≤ fuel) :
    undigits (natDigitsAux fuel n) = n := by
  induction fuel generalizing n with
  | zero =>
    have : n = 0 := Nat.le_zero.mp h
    subst this
    simp [natDigitsAux, undigits]
  | succ fuel ih =>
    by_cases h9 : n ≤ 9
    · simp [natDigitsAux, h9, undigits]
    · have hlt : n / 10 < n := Nat.div_lt_self (by omega) (by omega)
      have hle : n / 10 ≤ fuel := by omega
      simp only [natDigitsAux, if_neg h9, undigits_concat, ih _ hle]
      omega

theorem undigits_natDigits (n : Nat) : undigits (natDigits n) = n :=
  undigits_natDigitsAux n n le_rfl

theorem natDigits_injective : Function.Injective natDigits := by
  intro a b h
  have := undigits_natDigits a
  rw [h, undigits_natDigits] at this
  exact this.symm

theorem natDigitsAux_lt_ten (fuel n : Nat) (h : n ≤ fuel) :
    ∀ d ∈ natDigitsAux fuel n, d < 10 := by
  induction fuel generalizing n with
  | zero =>
    have : n = 0 := Nat.le_zero.mp h
    subst this
    intro d hd
    simp [natDigitsAux] at hd
    omega
  | succ fuel ih =>
    by_cases h9 : n ≤ 9
    · intro d hd
      simp [natDigitsAux, h9] at hd
      omega
    · intro d hd
      have hle : n / 10 ≤ fuel := by
        have : n / 10 < n := Nat.div_lt_self (by omega) (by omega)
        omega
      simp only [natDigitsAux, if_neg h9, List.mem_append, List.mem_singleton] at hd
      rcases hd with hd | hd
      · exact ih _ hle d hd
      · subst hd; exact Nat.mod_lt _ (by omega)

theorem natDigits_lt_ten (n : Nat) : ∀ d ∈ natDigits n, d < 10 :=
  natDigitsAux_lt_ten n n le_rfl

theorem digitChar_inj_lt : ∀ d < 10, ∀ e < 10, digitChar d = digitChar e → d = e := by
  decide

theorem map_digitChar_inj :
    ∀ (xs ys : List Nat), (∀ x ∈ xs, x < 10) → (∀ y ∈ ys, y < 10) →
      xs.map digitChar = ys.map digitChar → xs = ys := by
  intro xs
  induction xs with
  | nil =>
    intro ys _ _ h
    cases ys with
    | nil => rfl
    | cons y ys => simp at h
  | cons x xs ih =>
    intro ys hx hy h
    cases ys with
    | nil => simp at h
    | cons y ys =>
      simp only [List.map_cons, List.cons.injEq] at h
      have hxy : x = y :=
        digitChar_inj_lt x (hx x (by simp)) y (hy y (by simp)) h.1
      have : xs = ys :=
        ih ys (fun a ha => hx a (by simp [ha])) (fun a ha => hy a (by simp [ha])) h.2
      simp [hxy, this]

theorem natToStr_injective : Function.Injective natToStr := by
  intro a b h
  apply natDigits_injective
  have hdata : (natDigits a).map digitChar = (natDigits b).map digitChar :=
    congrArg String.data h
  exact map_digitChar_inj _ _ (natDigits_lt_ten a) (natDigits_lt_ten b) hdata
/-! ### Helper lemmas about `find?`, `updateFirst`, `removeFirst` -/

theorem find?_some_split {p : α → Bool} :
    ∀ {l : List α} {a : α}, l.find? p = some a →
      p a = true ∧ ∃ l1 l2, l = l1 ++ a :: l2 ∧ ∀ x ∈ l1, p x = false := by
  intro l
  induction l with
  | nil => intro a h; simp [List.find?] at h
  | cons x xs ih =>
    intro a h
    rw [List.find?_cons] at h
    rcases hx : p x with _ | _
    · rw [hx] at h
      simp only at h
      obtain ⟨hpa, l1, l2, heq, hl1⟩ := ih h
      exact ⟨hpa, x :: l1, l2, by simp [heq],
        by intro y hy; rcases List.mem_cons.mp hy with rfl | hy
           · exact hx
           · exact hl1 y hy⟩
    · rw [hx] at h
      simp only [Option.some.injEq] at h
      subst h
      exact ⟨hx, [], xs, rfl, by simp⟩

theorem updateFirst_split (p : α → Bool) (f : α → α) :
    ∀ (l1 : List α) (a : α) (l2 : List α), (∀ x ∈ l1, p x = false) → p a = true →
      updateFirst p f (l1 ++ a :: l2) = l1 ++ f a :: l2 := by
  intro l1
  induction l1 with
  | nil => intro a l2 _ ha; simp [updateFirst, ha]
  | cons x xs ih =>
    intro a l2 h1 ha
    have hx : p x = false := h1 x (by simp)
    simp only [List.cons_append, updateFirst, hx]
    simp only [Bool.false_eq_true, if_false, List.cons.injEq, true_and]
    exact ih a l2 (fun y hy => h1 y (by simp [hy])) ha

theorem updateFirst_eq_self (p : α → Bool) (f : α → α) :
    ∀ {l : List α}, (∀ x ∈ l, p x = false) → updateFirst p f l = l := by
  intro l
  induction l with
  | nil => intro _; rfl
  | cons x xs ih =>
    intro h
    have hx : p x = false := h x (by simp)
    simp only [updateFirst, hx, Bool.false_eq_true, if_false, List.cons.injEq, true_and]
    exact ih (fun y hy => h y (by simp [hy]))

theorem removeFirst_split (p : α → Bool) :
    ∀ (l1 : List α) (a : α) (l2 : List α), (∀ x ∈ l1, p x = false) → p a = true →
      removeFirst p (l1 ++ a :: l2) = l1 ++ l2 := by
  intro l1
  induction l1 with
  | nil => intro a l2 _ ha; simp [removeFirst, ha]
  | cons x xs ih =>
    intro a l2 h1 ha
    have hx : p x = false := h1 x (by simp)
    simp only [List.cons_append, removeFirst, hx]
    simp only [Bool.false_eq_true, if_false, List.cons.injEq, true_and]
    exact ih a l2 (fun y hy => h1 y (by simp [hy])) ha

/-! ### Injectivity of the generated identifiers -/

theorem natToStr_data_inj {a b : Nat}
    (h : (natToStr a).data = (natToStr b).data) : a = b := by
  apply natDigits_injective
  exact map_digitChar_inj _ _ (natDigits_lt_ten a) (natDigits_lt_ten b) h

theorem mkTaskId_injective : Function.Injective mkTaskId := by
  intro a b h
  have hd := congrArg String.data h
  rw [mkTaskId, mkTaskId, String.data_append, String.data_append] at hd
  exact natToStr_data_inj (List.append_cancel_left hd)

theorem mkMeetingId_injective : Function.Injective mkMeetingId := by
  intro a b h
  have hd := congrArg String.data h
  rw [mkMeetingId, mkMeetingId, String.data_append, String.data_append] at hd
  exact natToStr_data_inj (List.append_cancel_left hd)

/-- Tasks with equal ids in a store whose ids are `Nodup` are equal. -/
theorem task_eq_of_id_eq {l : List ProcessingTask}
    (hnd : (l.map (fun t => t.id)).Nodup) {a b : ProcessingTask}
    (ha : a ∈ l) (hb : b ∈ l) (h : a.id = b.id) : a = b :=
  List.inj_on_of_nodup_map hnd ha hb h

theorem stageApply_id (stage now : Nat) (t : ProcessingTask) :
    (stageApply stage now t).id = t.id := by
  unfold stageApply
  split <;> rfl

/-! ### The store invariant -/

theorem inv_init : Inv initialState := by
  refine ⟨?_, ?_, ?_, ?_, ?_, ?_⟩
  · intro t ht
    rcases (by simpa [initialState] using ht : t = initialTask1 ∨ t = initialTask2) with rfl | rfl
    · exact ⟨1, by decide, by decide⟩
    · exact ⟨2, by decide, by decide⟩
  · decide
  · intro p hp
    simp [initialState] at hp
  · intro t ht
    right; right; right
    rfl
  · intro t ht
    rcases (by simpa [initialState] using ht : t = initialTask1 ∨ t = initialTask2) with rfl | rfl
    · decide
    · decide
  · intro t ht
    rcases (by simpa [initialState] using ht : t = initialTask1 ∨ t = initialTask2) with rfl | rfl
    · decide
    · decide


theorem createTask_fst (ws fn : String) (sz : Nat) (s : MockState) :
    (createTask ws fn sz s).1 = newTaskOf ws fn sz s := rfl

theorem createTask_snd (ws fn : String) (sz : Nat) (s : MockState) :
    (createTask ws fn sz s).2 =
      { tasks := s.tasks ++ [newTaskOf ws fn sz s]
        meetings := s.meetings
        pending := s.pending ++
          [⟨mkTaskId s.now, 1⟩, ⟨mkTaskId s.now, 2⟩, ⟨mkTaskId s.now, 3⟩]
        now := s.now + 1 } := rfl

theorem inv_create (s : MockState) (hInv : Inv s) (ws fn : String) (sz : Nat) :
    Inv (createTask ws fn sz s).2 := by
  obtain ⟨hids, hnd, hpids, hpok, hprog, hstat⟩ := hInv
  have hfresh : ∀ t ∈ s.tasks, t.id ≠ mkTaskId s.now := by
    intro t ht h
    obtain ⟨k, hk, hkid⟩ := hids t ht
    exact absurd (mkTaskId_injective (hkid ▸ h)) (by omega)
  have hpfresh : ∀ p ∈ s.pending, p.taskId ≠ mkTaskId s.now := by
    intro p hp h
    obtain ⟨k, hk, hkid⟩ := hpids p hp
    exact absurd (mkTaskId_injective (hkid ▸ h)) (by omega)
  rw [createTask_snd]
  have hpendSame : ∀ tid : String, tid ≠ mkTaskId s.now →
      (List.filter (fun p => p.taskId == tid) (s.pending ++
        [⟨mkTaskId s.now, 1⟩, ⟨mkTaskId s.now, 2⟩, ⟨mkTaskId s.now, 3⟩]))
      = List.filter (fun p => p.taskId == tid) s.pending := by
    intro tid htid
    rw [List.filter_append]
    have hne : (mkTaskId s.now == tid) = false := by
      simp only [beq_eq_false_iff_ne, ne_eq]
      exact fun h => htid h.symm
    simp [List.filter_cons, hne]
  refine ⟨?_, ?_, ?_, ?_, ?_, ?_⟩
  · intro t ht
    rcases List.mem_append.mp ht with h | h
    · obtain ⟨k, hk, hkid⟩ := hids t h
      exact ⟨k, Nat.lt_succ_of_lt hk, hkid⟩
    · rw [List.mem_singleton.mp h]
      exact ⟨s.now, Nat.lt_succ_self s.now, rfl⟩
  · simp only [List.map_append, List.nodup_append]
    refine ⟨hnd, by simp, ?_⟩
    intro x hx
    simp only [List.mem_map] at hx
    obtain ⟨t, ht, rfl⟩ := hx
    simp only [List.map_cons, List.map_nil, List.mem_singleton, newTaskOf]
    exact fun h => hfresh t ht h
  · intro p hp
    rcases List.mem_append.mp hp with h | h
    · obtain ⟨k, hk, hkid⟩ := hpids p h
      exact ⟨k, Nat.lt_succ_of_lt hk, hkid⟩
    · rcases (by simpa using h : p = (⟨mkTaskId s.now, 1⟩ : Timer) ∨
          p = (⟨mkTaskId s.now, 2⟩ : Timer) ∨ p = (⟨mkTaskId s.now, 3⟩ : Timer))
        with rfl | rfl | rfl <;> exact ⟨s.now, Nat.lt_succ_self s.now, rfl⟩
  · intro t ht
    rcases List.mem_append.mp ht with h | h
    · have heq : pendingFor
          { tasks := s.tasks ++ [newTaskOf ws fn sz s]
            meetings := s.meetings
            pending := s.pending ++
              [⟨mkTaskId s.now, 1⟩, ⟨mkTaskId s.now, 2⟩, ⟨mkTaskId s.now, 3⟩]
            now := s.now + 1 } t.id = pendingFor s t.id := by
        simp only [pendingFor]
        rw [hpendSame t.id (hfresh t h)]
      rw [heq]
      exact hpok t h
    · rw [List.mem_singleton.mp h]
      left
      refine ⟨?_, rfl, rfl⟩
      simp only [pendingFor, newTaskOf, List.filter_append]
      have h0 : List.filter (fun p => p.taskId == mkTaskId s.now) s.pending = [] := by
        rw [List.filter_eq_nil_iff]
        intro p hp
        simp only [beq_iff_eq]
        exact hpfresh p hp
      rw [h0]
      simp
  · intro t ht
    rcases List.mem_append.mp ht with h | h
    · exact hprog t h
    · rw [List.mem_singleton.mp h]; exact Nat.zero_le _
  · intro t ht
    rcases List.mem_append.mp ht with h | h
    · exact hstat t h
    · rw [List.mem_singleton.mp h]; left; rfl

theorem fireTimer_not_found {s : MockState} {tid : String}
    (hfp : s.pending.find? (fun p => p.taskId == tid) = none) :
    fireTimer tid s = s := by
  simp [fireTimer, hfp]

theorem fireTimer_found {s : MockState} {tid : String} {tm : Timer}
    (hfp : s.pending.find? (fun p => p.taskId == tid) = some tm) :
    fireTimer tid s =
      { tasks := updateFirst (fun t => t.id == tid) (stageApply tm.stage s.now) s.tasks
        meetings := s.meetings
        pending := removeFirst (fun p => p.taskId == tid) s.pending
        now := s.now + 1 } := by
  simp [fireTimer, hfp]

theorem filter_middle_ne {P1 P2 : List Timer} {tm : Timer} {tid' : String}
    (h : (tm.taskId == tid') = false) :
    List.filter (fun p => p.taskId == tid') (P1 ++ tm :: P2) =
      List.filter (fun p => p.taskId == tid') (P1 ++ P2) := by
  simp [List.filter_append, List.filter_cons, h]

theorem inv_fire (s : MockState) (hInv : Inv s) (tid : String) :
    Inv (fireTimer tid s) := by
  obtain ⟨hids, hnd, hpids, hpok, hprog, hstat⟩ := hInv
  rcases hfp : s.pending.find? (fun p => p.taskId == tid) with _ | tm
  · rw [fireTimer_not_found hfp]
    exact ⟨hids, hnd, hpids, hpok, hprog, hstat⟩
  obtain ⟨htm, P1, P2, hPeq, hP1⟩ := find?_some_split hfp
  have htmid : tm.taskId = tid := by simpa using htm
  have hrm : removeFirst (fun p => p.taskId == tid) s.pending = P1 ++ P2 := by
    rw [hPeq]; exact removeFirst_split _ P1 tm P2 hP1 htm
  have hpendOther : ∀ tid' : String, tid' ≠ tid →
      List.filter (fun p => p.taskId == tid') (P1 ++ P2) =
        List.filter (fun p => p.taskId == tid') s.pending := by
    intro tid' hne
    rw [hPeq]
    exact (filter_middle_ne (by simp [htmid]; exact fun h => hne h.symm)).symm
  have hpendSelfOld : List.filter (fun p => p.taskId == tid) s.pending =
      tm :: List.filter (fun p => p.taskId == tid) P2 := by
    rw [hPeq, List.filter_append, List.filter_eq_nil_iff.mpr (by
      intro x hx; simp only [hP1 x hx]; simp), List.filter_cons, if_pos htm,
      List.nil_append]
  have hpendSelfNew : List.filter (fun p => p.taskId == tid) (P1 ++ P2) =
      List.filter (fun p => p.taskId == tid) P2 := by
    rw [List.filter_append, List.filter_eq_nil_iff.mpr (by
      intro x hx; simp only [hP1 x hx]; simp), List.nil_append]
  rcases hft : s.tasks.find? (fun t => t.id == tid) with _ | a
  · -- no live task with this id: the callback body finds nothing
    have hall : ∀ t ∈ s.tasks, (t.id == tid) = false := by
      intro t ht
      have := List.find?_eq_none.mp hft t ht
      simpa using this
    have hup : updateFirst (fun t => t.id == tid) (stageApply tm.stage s.now) s.tasks
        = s.tasks := updateFirst_eq_self _ _ hall
    rw [fireTimer_found hfp, hup, hrm]
    refine ⟨?_, hnd, ?_, ?_, hprog, hstat⟩
    · intro t ht
      obtain ⟨k, hk, hkid⟩ := hids t ht
      exact ⟨k, Nat.lt_succ_of_lt hk, hkid⟩
    · intro p hp
      have hp' : p ∈ s.pending := by
        rw [hPeq]
        rcases List.mem_append.mp hp with h | h
        · exact List.mem_append.mpr (Or.inl h)
        · exact List.mem_append.mpr (Or.inr (List.mem_cons_of_mem tm h))
      obtain ⟨k, hk, hkid⟩ := hpids p hp'
      exact ⟨k, Nat.lt_succ_of_lt hk, hkid⟩
    · intro t ht
      have hne : t.id ≠ tid := by
        have := hall t ht
        simpa using this
      have : pendingFor
          { tasks := s.tasks, meetings := s.meetings, pending := P1 ++ P2,
            now := s.now + 1 } t.id = pendingFor s t.id := by
        simp only [pendingFor]
        rw [hpendOther t.id hne]
      rw [this]
      exact hpok t ht
  · -- the callback body finds the task and advances it
    obtain ⟨hpa, L1, L2, hLeq, hL1⟩ := find?_some_split hft
    have haid : a.id = tid := by simpa using hpa
    have hup : updateFirst (fun t => t.id == tid) (stageApply tm.stage s.now) s.tasks
        = L1 ++ stageApply tm.stage s.now a :: L2 := by
      rw [hLeq]; exact updateFirst_split _ _ L1 a L2 hL1 hpa
    have hndL : (List.map (fun t => t.id) L1 ++ a.id :: List.map (fun t => t.id) L2).Nodup := by
      have := hnd
      rw [hLeq] at this
      simpa using this
    have hL2 : ∀ x ∈ L2, x.id ≠ tid := by
      intro x hx h
      rw [List.nodup_middle, List.nodup_cons] at hndL
      exact hndL.1 (List.mem_append.mpr (Or.inr (by
        exact List.mem_map.mpr ⟨x, hx, h.trans haid.symm⟩)))
    have hmemL : ∀ t, t ∈ L1 ∨ t ∈ L2 → t ∈ s.tasks := by
      intro t h
      rw [hLeq]
      rcases h with h | h
      · exact List.mem_append.mpr (Or.inl h)
      · exact List.mem_append.mpr (Or.inr (List.mem_cons_of_mem a h))
    have hamem : a ∈ s.tasks := by
      rw [hLeq]; exact List.mem_append.mpr (Or.inr (List.mem_cons_self a L2))
    -- the pending discipline forces the stage number
    have hpfa : PendingOk (pendingFor s tid) a := haid ▸ hpok a hamem
    have hpf : pendingFor s tid =
        tm.stage :: (List.filter (fun p => p.taskId == tid) P2).map (fun p => p.stage) := by
      simp only [pendingFor, hpendSelfOld, List.map_cons]
    rw [fireTimer_found hfp, hup, hrm]
    have hpendNewSelf : pendingFor
        { tasks := L1 ++ stageApply tm.stage s.now a :: L2, meetings := s.meetings,
          pending := P1 ++ P2, now := s.now + 1 } tid =
        (List.filter (fun p => p.taskId == tid) P2).map (fun p => p.stage) := by
      simp only [pendingFor, hpendSelfNew]
    have hpendNewOther : ∀ tid' : String, tid' ≠ tid → pendingFor
        { tasks := L1 ++ stageApply tm.stage s.now a :: L2, meetings := s.meetings,
          pending := P1 ++ P2, now := s.now + 1 } tid' = pendingFor s tid' := by
      intro tid' hne
      simp only [pendingFor]
      rw [hpendOther tid' hne]
    have hstage : (tm.stage = 1 ∧ a.status = .queued ∧ a.progress = 0 ∧
          (List.filter (fun p => p.taskId == tid) P2).map (fun p => p.stage) = [2, 3]) ∨
        (tm.stage = 2 ∧ a.status = .processing ∧ a.progress = 10 ∧
          (List.filter (fun p => p.taskId == tid) P2).map (fun p => p.stage) = [3]) ∨
        (tm.stage = 3 ∧ a.status = .processing ∧ a.progress = 50 ∧
          (List.filter (fun p => p.taskId == tid) P2).map (fun p => p.stage) = []) := by
      rcases hpfa with ⟨h1, h2, h3⟩ | ⟨h1, h2, h3⟩ | ⟨h1, h2, h3⟩ | h1 <;>
        rw [hpf] at h1
      · left
        simp only [List.cons.injEq] at h1
        exact ⟨h1.1, h2, h3, h1.2⟩
      · right; left
        simp only [List.cons.injEq] at h1
        exact ⟨h1.1, h2, h3, h1.2⟩
      · right; right
        simp only [List.cons.injEq] at h1
        exact ⟨h1.1, h2, h3, h1.2⟩
      · exact absurd h1 (List.cons_ne_nil _ _)
    refine ⟨?_, ?_, ?_, ?_, ?_, ?_⟩
    · intro t ht
      rcases List.mem_append.mp ht with h | h
      · obtain ⟨k, hk, hkid⟩ := hids t (hmemL t (Or.inl h))
        exact ⟨k, Nat.lt_succ_of_lt hk, hkid⟩
      · rcases List.mem_cons.mp h with rfl | h
        · obtain ⟨k, hk, hkid⟩ := hids a hamem
          exact ⟨k, Nat.lt_succ_of_lt hk, by rw [stageApply_id]; exact hkid⟩
        · obtain ⟨k, hk, hkid⟩ := hids t (hmemL t (Or.inr h))
          exact ⟨k, Nat.lt_succ_of_lt hk, hkid⟩
    · have : List.map (fun t => t.id) (L1 ++ stageApply tm.stage s.now a :: L2) =
          List.map (fun t => t.id) s.tasks := by
        rw [hLeq]
        simp [stageApply_id]
      rw [this]
      exact hnd
    · intro p hp
      have hp' : p ∈ s.pending := by
        rw [hPeq]
        rcases List.mem_append.mp hp with h | h
        · exact List.mem_append.mpr (Or.inl h)
        · exact List.mem_append.mpr (Or.inr (List.mem_cons_of_mem tm h))
      obtain ⟨k, hk, hkid⟩ := hpids p hp'
      exact ⟨k, Nat.lt_succ_of_lt hk, hkid⟩
    · intro t ht
      rcases List.mem_append.mp ht with h | h
      · have hne : t.id ≠ tid := by
          have := hL1 t h
          simpa using this
        rw [hpendNewOther t.id hne]
        exact hpok t (hmemL t (Or.inl h))
      · rcases List.mem_cons.mp h with rfl | h
        · rw [show (stageApply tm.stage s.now a).id = tid from (stageApply_id _ _ _).trans haid,
            hpendNewSelf]
          rcases hstage with ⟨h1, h2, h3, h4⟩ | ⟨h1, h2, h3, h4⟩ | ⟨h1, h2, h3, h4⟩
          · right; left
            rw [h1]
            exact ⟨h4, rfl, rfl⟩
          · right; right; left
            rw [h1]
            exact ⟨h4, by simp [stageApply, h2], rfl⟩
          · right; right; right
            exact h4
        · rw [hpendNewOther t.id (hL2 t h)]
          exact hpok t (hmemL t (Or.inr h))
    · intro t ht
      rcases List.mem_append.mp ht with h | h
      · exact hprog t (hmemL t (Or.inl h))
      · rcases List.mem_cons.mp h with rfl | h
        · rcases hstage with ⟨h1, _, _, _⟩ | ⟨h1, _, _, _⟩ | ⟨h1, _, _, _⟩ <;>
            simp [stageApply, h1]
        · exact hprog t (hmemL t (Or.inr h))
    · intro t ht
      rcases List.mem_append.mp ht with h | h
      · exact hstat t (hmemL t (Or.inl h))
      · rcases List.mem_cons.mp h with rfl | h
        · rcases hstage with ⟨h1, h2, _, _⟩ | ⟨h1, h2, _, _⟩ | ⟨h1, h2, _, _⟩
          · right; left; simp [stageApply, h1]
          · right; left; simp [stageApply, h1, h2]
          · right; right; simp [stageApply, h1]
        · exact hstat t (hmemL t (Or.inr h))

theorem finalizeTask_not_found {s : MockState} {tid : String} (data : FinalizeData)
    (hft : s.tasks.find? (fun t => t.id == tid) = none) :
    finalizeTask tid data s = .error "Task not found" := by
  simp [finalizeTask, hft]

theorem finalizeTask_found {s : MockState} {tid : String} {a : ProcessingTask}
    (data : FinalizeData) (hft : s.tasks.find? (fun t => t.id == tid) = some a) :
    finalizeTask tid data s = .ok (mkMeetingId s.now,
      { tasks := s.tasks.filter (fun t => t.id != tid)
        meetings := s.meetings ++ [newMeetingOf data a s]
        pending := s.pending
        now := s.now + 1 }) := by
  simp [finalizeTask, hft, newMeetingOf]

theorem inv_finalize (s : MockState) (hInv : Inv s) (tid : String) (data : FinalizeData)
    {mid : String} {s' : MockState}
    (h : finalizeTask tid data s = .ok (mid, s')) : Inv s' := by
  obtain ⟨hids, hnd, hpids, hpok, hprog, hstat⟩ := hInv
  rcases hft : s.tasks.find? (fun t => t.id == tid) with _ | a
  · rw [finalizeTask_not_found data hft] at h
    exact absurd h (by simp)
  rw [finalizeTask_found data hft] at h
  injection h with h'
  injection h' with h1 h2
  subst h1
  subst h2
  refine ⟨?_, ?_, ?_, ?_, ?_, ?_⟩
  · intro t ht
    obtain ⟨k, hk, hkid⟩ := hids t (List.mem_filter.mp ht).1
    exact ⟨k, Nat.lt_succ_of_lt hk, hkid⟩
  · exact List.Nodup.sublist
      (List.Sublist.map _ (List.filter_sublist s.tasks)) hnd
  · intro p hp
    obtain ⟨k, hk, hkid⟩ := hpids p hp
    exact ⟨k, Nat.lt_succ_of_lt hk, hkid⟩
  · intro t ht
    exact hpok t (List.mem_filter.mp ht).1
  · intro t ht
    exact hprog t (List.mem_filter.mp ht).1
  · intro t ht
    exact hstat t (List.mem_filter.mp ht).1

theorem inv_step {s s' : MockState} (hInv : Inv s) (h : Step s s') : Inv s' := by
  cases h with
  | create ws fn sz => exact inv_create s hInv ws fn sz
  | timer tid => exact inv_fire s hInv tid
  | finalize tid data _ mid s2 hfin => exact inv_finalize s hInv tid data hfin

theorem inv_reachable {s : MockState} (h : Reachable s) : Inv s := by
  induction h with
  | refl => exact inv_init
  | tail _ hstep ih => exact inv_step ih hstep

/-- What `fireTimer` does to the task store: either it leaves it unchanged,
or it advances exactly one task by the stage its timer discipline dictates. -/
theorem fire_tasks_dissect (s : MockState) (hInv : Inv s) (tid : String) :
    (fireTimer tid s).tasks = s.tasks ∨
    ∃ stage L1 a L2,
      s.tasks = L1 ++ a :: L2 ∧ a.id = tid ∧
      (fireTimer tid s).tasks = L1 ++ stageApply stage s.now a :: L2 ∧
      ((stage = 1 ∧ a.status = .queued ∧ a.progress = 0) ∨
       (stage = 2 ∧ a.status = .processing ∧ a.progress = 10) ∨
       (stage = 3 ∧ a.status = .processing ∧ a.progress = 50)) := by
  obtain ⟨hids, hnd, hpids, hpok, hprog, hstat⟩ := hInv
  rcases hfp : s.pending.find? (fun p => p.taskId == tid) with _ | tm
  · left
    rw [fireTimer_not_found hfp]
  obtain ⟨htm, P1, P2, hPeq, hP1⟩ := find?_some_split hfp
  rcases hft : s.tasks.find? (fun t => t.id == tid) with _ | a
  · left
    have hall : ∀ t ∈ s.tasks, (t.id == tid) = false := by
      intro t ht
      have := List.find?_eq_none.mp hft t ht
      simpa using this
    rw [fireTimer_found hfp]
    exact updateFirst_eq_self _ _ hall
  · right
    obtain ⟨hpa, L1, L2, hLeq, hL1⟩ := find?_some_split hft
    have haid : a.id = tid := by simpa using hpa
    have hamem : a ∈ s.tasks := by
      rw [hLeq]; exact List.mem_append.mpr (Or.inr (List.mem_cons_self a L2))
    have hP1nil : List.filter (fun p => p.taskId == tid) P1 = [] :=
      List.filter_eq_nil_iff.mpr (fun x hx => by simp only [hP1 x hx]; simp)
    have hpf : pendingFor s tid =
        tm.stage :: (List.filter (fun p => p.taskId == tid) P2).map (fun p => p.stage) := by
      simp only [pendingFor, hPeq, List.filter_append, hP1nil,
        List.filter_cons, if_pos htm, List.nil_append, List.map_cons]
    have hpfa : PendingOk (pendingFor s tid) a := haid ▸ hpok a hamem
    have hstage : (tm.stage = 1 ∧ a.status = .queued ∧ a.progress = 0) ∨
        (tm.stage = 2 ∧ a.status = .processing ∧ a.progress = 10) ∨
        (tm.stage = 3 ∧ a.status = .processing ∧ a.progress = 50) := by
      rcases hpfa with ⟨h1, h2, h3⟩ | ⟨h1, h2, h3⟩ | ⟨h1, h2, h3⟩ | h1 <;>
        rw [hpf] at h1
      · left
        simp only [List.cons.injEq] at h1
        exact ⟨h1.1, h2, h3⟩
      · right; left
        simp only [List.cons.injEq] at h1
        exact ⟨h1.1, h2, h3⟩
      · right; right
        simp only [List.cons.injEq] at h1
        exact ⟨h1.1, h2, h3⟩
      · exact absurd h1 (List.cons_ne_nil _ _)
    refine ⟨tm.stage, L1, a, L2, hLeq, haid, ?_, hstage⟩
    rw [fireTimer_found hfp, hLeq]
    exact updateFirst_split _ _ L1 a L2 hL1 hpa

/-- Across one step, a surviving task is either untouched or advanced by
exactly one simulated-progression stage from its current position. -/
theorem step_task_pairs {s s' : MockState} (hInv : Inv s) (h : Step s s') :
    ∀ t ∈ s.tasks, ∀ t' ∈ s'.tasks, t'.id = t.id →
      t' = t ∨
      (t.status = .queued ∧ t.progress = 0 ∧ t' = stageApply 1 s.now t) ∨
      (t.status = .processing ∧ t.progress = 10 ∧ t' = stageApply 2 s.now t) ∨
      (t.status = .processing ∧ t.progress = 50 ∧ t' = stageApply 3 s.now t) := by
  intro t ht t' ht' hid
  cases h with
  | create ws fn sz =>
    rw [createTask_snd] at ht'
    rcases List.mem_append.mp ht' with h' | h'
    · exact Or.inl (task_eq_of_id_eq hInv.nodupIds h' ht hid)
    · exfalso
      rw [List.mem_singleton.mp h'] at hid
      obtain ⟨k, hk, hkid⟩ := hInv.taskIds t ht
      have : s.now = k := mkTaskId_injective (by rw [← hkid, ← hid]; rfl)
      omega
  | timer tid =>
    rcases fire_tasks_dissect s hInv tid with hsame | ⟨stage, L1, a, L2, hLeq, haid, hres, hstage⟩
    · rw [hsame] at ht'
      exact Or.inl (task_eq_of_id_eq hInv.nodupIds ht' ht hid)
    · rw [hres] at ht'
      have hmemL : ∀ x, x ∈ L1 ∨ x ∈ L2 → x ∈ s.tasks := by
        intro x hx
        rw [hLeq]
        rcases hx with hx | hx
        · exact List.mem_append.mpr (Or.inl hx)
        · exact List.mem_append.mpr (Or.inr (List.mem_cons_of_mem a hx))
      have hamem : a ∈ s.tasks := by
        rw [hLeq]; exact List.mem_append.mpr (Or.inr (List.mem_cons_self a L2))
      rcases List.mem_append.mp ht' with h' | h'
      · exact Or.inl (task_eq_of_id_eq hInv.nodupIds (hmemL t' (Or.inl h')) ht hid)
      · rcases List.mem_cons.mp h' with rfl | h'
        · have hat : a = t := by
            apply task_eq_of_id_eq hInv.nodupIds hamem ht
            rw [← hid, stageApply_id]
          subst hat
          rcases hstage with ⟨h1, h2, h3⟩ | ⟨h1, h2, h3⟩ | ⟨h1, h2, h3⟩
          · right; left; exact ⟨h2, h3, by rw [h1]⟩
          · right; right; left; exact ⟨h2, h3, by rw [h1]⟩
          · right; right; right; exact ⟨h2, h3, by rw [h1]⟩
        · exact Or.inl (task_eq_of_id_eq hInv.nodupIds (hmemL t' (Or.inr h')) ht hid)
  | finalize tid data _ mid s2 hfin =>
    rcases hft : s.tasks.find? (fun x => x.id == tid) with _ | a
    · rw [finalizeTask_not_found data hft] at hfin
      exact absurd hfin (by simp)
    · rw [finalizeTask_found data hft] at hfin
      injection hfin with h'
      injection h' with h1 h2
      subst h2
      exact Or.inl (task_eq_of_id_eq hInv.nodupIds (List.mem_filter.mp ht').1 ht hid)

theorem find?_append_left_none {p : α → Bool} {l1 l2 : List α}
    (h : ∀ x ∈ l1, p x = false) : (l1 ++ l2).find? p = l2.find? p := by
  induction l1 with
  | nil => rfl
  | cons x xs ih =>
    have hx := h x (by simp)
    simp only [List.cons_append, List.find?_cons, hx]
    exact ih (fun y hy => h y (by simp [hy]))

/-- Claim C8: for every tenantId, listing jobs by tenant returns exactly the
jobs whose tenantId equals the given one — every returned job belongs to
that tenant and no job of that tenant is omitted. -/
theorem C8_listByTenant_exact (ws : String) (s : MockState) (t : ProcessingTask) :
    t ∈ getTasks ws s ↔ t ∈ s.tasks ∧ t.workspaceId = ws := by
  simp [getTasks, List.mem_filter]

/-- Claim C4, counterexample: the single log entry of a newly created job
reads `File uploaded successfully`; it does not record that the job was
queued (the string `queued` does not occur in it). -/
theorem C4_counterexample :
    ((createTask "ws_1" "audio_1" 5 initialState).1).status = TaskStatus.queued ∧
    ((createTask "ws_1" "audio_1" 5 initialState).1).progress = 0 ∧
    ((createTask "ws_1" "audio_1" 5 initialState).1).logs =
      [logEntry initNow "File uploaded successfully"] ∧
    ¬ ("queued".data <:+: (logEntry initNow "File uploaded successfully").data) := by
  refine ⟨rfl, rfl, rfl, by decide⟩

/-- Claim C4 (amended): for every tenantId and sourceRef, a newly created
job has state queued, progress 0, and a log containing exactly one entry;
that entry records the file upload (`File uploaded successfully`), not a
"queued" message. -/
theorem C4_created_job_initial (ws fn : String) (sz : Nat) (s : MockState) :
    ((createTask ws fn sz s).1).status = TaskStatus.queued ∧
    ((createTask ws fn sz s).1).progress = 0 ∧
    ((createTask ws fn sz s).1).logs = [logEntry s.now "File uploaded successfully"] ∧
    (createTask ws fn sz s).1 ∈ ((createTask ws fn sz s).2).tasks := by
  refine ⟨rfl, rfl, rfl, ?_⟩
  rw [createTask_snd]
  simp only [List.mem_append, List.mem_singleton]
  exact Or.inr (createTask_fst ws fn sz s)

/-- Claim C5, counterexample: creating a job with an empty sourceRef
(filename) succeeds — a job with empty filename is appended to the store,
no `ValidationError` is raised. -/
theorem C5_counterexample :
    ((createTask "ws_1" "" 0 initialState).2).tasks.length
        = initialState.tasks.length + 1 ∧
    ((createTask "ws_1" "" 0 initialState).1).filename = "" ∧
    (createTask "ws_1" "" 0 initialState).1 ∈
      ((createTask "ws_1" "" 0 initialState).2).tasks := by
  refine ⟨rfl, rfl, by decide⟩

/-- Claim C5 (amended): `createTask` performs no validation: creating a job
with an empty sourceRef (filename) succeeds and the job is created — the
store grows by one and contains the new task with empty filename. -/
theorem C5_no_validation (ws : String) (sz : Nat) (s : MockState) :
    ((createTask ws "" sz s).2).tasks.length = s.tasks.length + 1 ∧
    ((createTask ws "" sz s).1).filename = "" ∧
    (createTask ws "" sz s).1 ∈ ((createTask ws "" sz s).2).tasks := by
  refine ⟨?_, rfl, ?_⟩
  · rw [createTask_snd]
    simp
  · rw [createTask_snd]
    simp only [List.mem_append, List.mem_singleton]
    exact Or.inr (createTask_fst ws "" sz s)

/-- Claim C2, counterexample: the reachable initial store contains a task
(`task_2`) whose status literal is `processing`, which is not among the six
§4.3 state names (`QUEUED, TRANSCRIBING, SUMMARIZING, REVIEW_READY,
COMPLETED, FAILED`): the code collapses the two in-flight stages into a
single `processing` state. -/
theorem C2_counterexample :
    Reachable initialState ∧
    initialTask2 ∈ initialState.tasks ∧
    TaskStatus.name initialTask2.status = "processing" ∧
    "processing" ∉ specStateNamesAsLiterals ∧
    "PROCESSING" ∉ specSection43StateNames := by
  refine ⟨Relation.ReflTransGen.refl, by decide, rfl, by decide, by decide⟩

/-- Claim C2 (amended): every reachable task's state is one of the code's
literals queued, processing, review_ready (completed and failed are never
produced); created jobs start queued; and a surviving task's state moves in
one step only along queued → processing → review_ready (finalize removes
the task instead of marking it completed). -/
theorem C2_state_machine (s : MockState) (hs : Reachable s) :
    (∀ t ∈ s.tasks, t.status = TaskStatus.queued ∨ t.status = TaskStatus.processing ∨
      t.status = TaskStatus.review_ready) ∧
    (∀ ws fn sz, ((createTask ws fn sz s).1).status = TaskStatus.queued) ∧
    (∀ s', Step s s' → ∀ t ∈ s.tasks, ∀ t' ∈ s'.tasks, t'.id = t.id →
      t'.status = t.status ∨
      (t.status = TaskStatus.queued ∧ t'.status = TaskStatus.processing) ∨
      (t.status = TaskStatus.processing ∧ t'.status = TaskStatus.review_ready)) := by
  have hInv := inv_reachable hs
  refine ⟨hInv.statOk, fun ws fn sz => rfl, ?_⟩
  intro s' hstep t ht t' ht' hid
  rcases step_task_pairs hInv hstep t ht t' ht' hid with rfl | ⟨h1, _, rfl⟩ | ⟨h1, _, rfl⟩ |
    ⟨h1, _, rfl⟩
  · left; rfl
  · right; left; exact ⟨h1, rfl⟩
  · left; rfl
  · right; right; exact ⟨h1, rfl⟩

/-- Claim C2 witness: the amended state-machine theorem applied to the
initial state and its seeded review-ready task. -/
theorem C2_state_machine_witness :
    initialTask1.status = TaskStatus.queued ∨
    initialTask1.status = TaskStatus.processing ∨
    initialTask1.status = TaskStatus.review_ready :=
  (C2_state_machine initialState Relation.ReflTransGen.refl).1 initialTask1 (by decide)

/-- Claim C1, counterexample: finalize does not check the job's state — a
freshly created job, still in state queued, is finalized successfully. -/
theorem C1_counterexample :
    Reachable ((createTask "ws_1" "audio_1" 5 initialState).2) ∧
    ((createTask "ws_1" "audio_1" 5 initialState).1).status = TaskStatus.queued ∧
    exceptIsOk (finalizeTask ((createTask "ws_1" "audio_1" 5 initialState).1).id
      finSync ((createTask "ws_1" "audio_1" 5 initialState).2)) = true := by
  refine ⟨Relation.ReflTransGen.single
    (Step.create "ws_1" "audio_1" 5 initialState), rfl, by decide⟩

/-- Claim C1 (amended): finalize succeeds on any stored task regardless of
its state; calling finalize twice on the same job id yields exactly one
Meeting, the second call being rejected with the error `Task not found`
because the first call removed the task (the job is not retained in state
COMPLETED). -/
theorem C1_exactly_one_completion (s : MockState) (tid : String)
    (d d' : FinalizeData) (mid : String) (s' : MockState)
    (h : finalizeTask tid d s = .ok (mid, s')) :
    finalizeTask tid d' s' = .error "Task not found" ∧
    s'.meetings.length = s.meetings.length + 1 := by
  rcases hft : s.tasks.find? (fun t => t.id == tid) with _ | a
  · rw [finalizeTask_not_found d hft] at h
    exact absurd h (by simp)
  · rw [finalizeTask_found d hft] at h
    injection h with h'
    injection h' with h1 h2
    subst h2
    constructor
    · apply finalizeTask_not_found d'
      apply List.find?_eq_none.mpr
      intro x hx
      have hne := (List.mem_filter.mp hx).2
      simp only [bne_iff_ne, ne_eq] at hne
      simp [hne]
    · simp

/-- Claim C1 witness: finalizing the seeded task `task_1` once succeeds;
the instantiated amended theorem then gives the rejected second call and
the single appended meeting. -/
theorem C1_exactly_one_completion_witness :
    finalizeTask "task_1" finSync fin1State = Except.error "Task not found" ∧
    fin1State.meetings.length = initialState.meetings.length + 1 :=
  C1_exactly_one_completion initialState "task_1" finSync finSync
    (mkMeetingId initNow) fin1State (by rfl)

/-- Claim C3, counterexample: finalize succeeds on the seeded task
`task_1`, yet afterwards the job is gone — `getTask` no longer finds it, so
the job record is deleted rather than retained in state COMPLETED. -/
theorem C3_counterexample :
    finalizeTask "task_1" finSync initialState =
      Except.ok (mkMeetingId initNow, fin1State) ∧
    getTask "task_1" fin1State = none ∧
    (∀ t ∈ fin1State.tasks, t.id ≠ "task_1") := by
  refine ⟨by rfl, by decide, by decide⟩

/-- Claim C3 (amended): after a successful finalize the task is removed
from the task store (`getTask` returns none); the Meeting created from it
carries status completed and is retrievable through the tenant-scoped
meeting listing. -/
theorem C3_finalize_removes_task (s : MockState) (tid : String)
    (d : FinalizeData) (mid : String) (s' : MockState)
    (h : finalizeTask tid d s = .ok (mid, s')) :
    getTask tid s' = none ∧
    ∃ m, m ∈ s'.meetings ∧ m.id = mid ∧ m.status = MeetingStatus.completed ∧
      m ∈ getMeetings m.workspaceId s' := by
  rcases hft : s.tasks.find? (fun t => t.id == tid) with _ | a
  · rw [finalizeTask_not_found d hft] at h
    exact absurd h (by simp)
  · rw [finalizeTask_found d hft] at h
    injection h with h'
    injection h' with h1 h2
    subst h1
    subst h2
    constructor
    · apply List.find?_eq_none.mpr
      intro x hx
      have hne := (List.mem_filter.mp hx).2
      simp only [bne_iff_ne, ne_eq] at hne
      simp [hne]
    · refine ⟨newMeetingOf d a s, by simp, rfl, rfl, ?_⟩
      simp [getMeetings, List.mem_filter]

/-- Claim C3 witness: the amended theorem instantiated at the seeded task
`task_1` of the initial state. -/
theorem C3_finalize_removes_task_witness :
    getTask "task_1" fin1State = none ∧
    ∃ m, m ∈ fin1State.meetings ∧ m.id = mkMeetingId initNow ∧
      m.status = MeetingStatus.completed ∧ m ∈ getMeetings m.workspaceId fin1State :=
  C3_finalize_removes_task initialState "task_1" finSync
    (mkMeetingId initNow) fin1State (by rfl)

/-- Claim C9: a successful finalize removes exactly the finalized task from
the task store and appends exactly one new Meeting; every other task (in
order) and every pre-existing meeting is left unchanged, and the created
Meeting carries the supplied title, template and tags, the task's
workspaceId, and status completed.  The pending-timer queue is untouched. -/
theorem C9_finalize_frame (s : MockState) (hs : Reachable s) (tid : String)
    (d : FinalizeData) (mid : String) (s' : MockState)
    (h : finalizeTask tid d s = .ok (mid, s')) :
    ∃ task L1 L2,
      s.tasks = L1 ++ task :: L2 ∧ task.id = tid ∧
      s'.tasks = L1 ++ L2 ∧
      s'.meetings = s.meetings ++ [newMeetingOf d task s] ∧
      mid = (newMeetingOf d task s).id ∧
      (newMeetingOf d task s).title = d.title ∧
      (newMeetingOf d task s).template = some d.template ∧
      (newMeetingOf d task s).tags = some d.tags ∧
      (newMeetingOf d task s).workspaceId = task.workspaceId ∧
      (newMeetingOf d task s).status = MeetingStatus.completed ∧
      s'.pending = s.pending := by
  have hInv := inv_reachable hs
  rcases hft : s.tasks.find? (fun t => t.id == tid) with _ | a
  · rw [finalizeTask_not_found d hft] at h
    exact absurd h (by simp)
  · rw [finalizeTask_found d hft] at h
    injection h with h'
    injection h' with h1 h2
    subst h1
    subst h2
    obtain ⟨hpa, L1, L2, hLeq, hL1⟩ := find?_some_split hft
    have haid : a.id = tid := by simpa using hpa
    have hndL := hInv.nodupIds
    rw [hLeq] at hndL
    have hL2 : ∀ x ∈ L2, x.id ≠ tid := by
      intro x hx hxeq
      rw [List.map_append, List.map_cons, List.nodup_middle, List.nodup_cons] at hndL
      exact hndL.1 (List.mem_append.mpr (Or.inr
        (List.mem_map.mpr ⟨x, hx, hxeq.trans haid.symm⟩)))
    have hfilter : List.filter (fun t => t.id != tid) s.tasks = L1 ++ L2 := by
      rw [hLeq, List.filter_append, List.filter_cons]
      have ha : ((a.id != tid) = true) = False := by
        simp [haid]
      rw [if_neg (by simp [haid])]
      rw [List.filter_eq_self.mpr (by
        intro x hx
        simp only [bne_iff_ne, ne_eq]
        have := hL1 x hx
        simpa using this)]
      rw [List.filter_eq_self.mpr (by
        intro x hx
        simp only [bne_iff_ne, ne_eq]
        exact hL2 x hx)]
    exact ⟨a, L1, L2, hLeq, haid, hfilter, rfl, rfl, rfl, rfl, rfl, rfl, rfl, rfl⟩

/-- Claim C9 witness: the frame theorem instantiated at the seeded task
`task_1` of the initial state. -/
theorem C9_finalize_frame_witness :
    ∃ task L1 L2,
      initialState.tasks = L1 ++ task :: L2 ∧ task.id = "task_1" ∧
      fin1State.tasks = L1 ++ L2 ∧
      fin1State.meetings = initialState.meetings ++
        [newMeetingOf finSync task initialState] ∧
      mkMeetingId initNow = (newMeetingOf finSync task initialState).id ∧
      (newMeetingOf finSync task initialState).title = finSync.title ∧
      (newMeetingOf finSync task initialState).template = some finSync.template ∧
      (newMeetingOf finSync task initialState).tags = some finSync.tags ∧
      (newMeetingOf finSync task initialState).workspaceId = task.workspaceId ∧
      (newMeetingOf finSync task initialState).status = MeetingStatus.completed ∧
      fin1State.pending = initialState.pending :=
  C9_finalize_frame initialState Relation.ReflTransGen.refl "task_1" finSync
    (mkMeetingId initNow) fin1State (by rfl)

/-- Claim C10: immediately after creating a task, looking it up by the
returned id yields that same task; and an id with no task yields no task,
reported by `tasksApi.get` as a `Task not found` error. -/
theorem C10_create_get_roundtrip (s : MockState) (hs : Reachable s)
    (ws fn : String) (sz : Nat) (tid : String) :
    getTask ((createTask ws fn sz s).1).id ((createTask ws fn sz s).2) =
      some (createTask ws fn sz s).1 ∧
    (getTask tid s = none → tasksApiGet tid s = .error "Task not found") ∧
    (getTask tid s = none ↔ ∀ t ∈ s.tasks, t.id ≠ tid) := by
  have hInv := inv_reachable hs
  refine ⟨?_, ?_, ?_⟩
  · rw [createTask_snd, createTask_fst]
    show List.find? _ (s.tasks ++ [newTaskOf ws fn sz s]) = _
    rw [find?_append_left_none (by
      intro t ht
      obtain ⟨k, hk, hkid⟩ := hInv.taskIds t ht
      simp only [beq_eq_false_iff_ne, ne_eq, newTaskOf]
      intro heq
      rw [hkid] at heq
      have := mkTaskId_injective heq
      omega)]
    simp [newTaskOf]
  · intro hnone
    simp [tasksApiGet, hnone]
  · rw [getTask, List.find?_eq_none]
    constructor
    · intro h t ht heq
      exact h t ht (by simp [heq])
    · intro h t ht
      simp only [beq_iff_eq]
      exact h t ht

/-- Claim C10 witness: the round-trip theorem instantiated at the initial
state with a fresh upload and an absent id. -/
theorem C10_create_get_roundtrip_witness :
    getTask ((createTask "ws_1" "a.m4a" 5 initialState).1).id
        ((createTask "ws_1" "a.m4a" 5 initialState).2) =
      some (createTask "ws_1" "a.m4a" 5 initialState).1 ∧
    (getTask "task_9" initialState = none →
      tasksApiGet "task_9" initialState = .error "Task not found") ∧
    (getTask "task_9" initialState = none ↔
      ∀ t ∈ initialState.tasks, t.id ≠ "task_9") :=
  C10_create_get_roundtrip initialState Relation.ReflTransGen.refl "ws_1" "a.m4a" 5 "task_9"

/-- Claim C6: on every reachable state, each task's progress is an integer
between 0 and 100 (it is a natural number, so bounded below by 0), and
across any step a surviving task's progress never decreases.  The code has
no retry path, so monotonicity holds without exception. -/
theorem C6_progress_monotone (s : MockState) (hs : Reachable s) :
    (∀ t ∈ s.tasks, t.progress ≤ 100) ∧
    (∀ s', Step s s' → ∀ t ∈ s.tasks, ∀ t' ∈ s'.tasks, t'.id = t.id →
      t.progress ≤ t'.progress) := by
  have hInv := inv_reachable hs
  refine ⟨hInv.progLe, ?_⟩
  intro s' hstep t ht t' ht' hid
  rcases step_task_pairs hInv hstep t ht t' ht' hid with rfl | ⟨_, h2, rfl⟩ | ⟨_, h2, rfl⟩ |
    ⟨_, h2, rfl⟩
  · exact Nat.le_refl _
  · show t.progress ≤ 10
    omega
  · show t.progress ≤ 50
    omega
  · show t.progress ≤ 100
    omega

/-- Claim C6 witness: the theorem applied to the initial state; its seeded
in-flight task has progress within bounds. -/
theorem C6_progress_monotone_witness : initialTask2.progress ≤ 100 :=
  (C6_progress_monotone initialState Relation.ReflTransGen.refl).1 initialTask2 (by decide)

/-- Claim C7: across any step from a reachable state, a surviving task's
log is extended append-only (the old log is a prefix of the new one, never
truncated or reordered), and whenever the task's state changed the log
strictly grew, i.e. at least one entry was appended. -/
theorem C7_log_append_only (s : MockState) (hs : Reachable s) (s' : MockState)
    (h : Step s s') :
    ∀ t ∈ s.tasks, ∀ t' ∈ s'.tasks, t'.id = t.id →
      t.logs <+: t'.logs ∧
      (t'.status ≠ t.status → t.logs.length < t'.logs.length) := by
  have hInv := inv_reachable hs
  intro t ht t' ht' hid
  rcases step_task_pairs hInv h t ht t' ht' hid with rfl | ⟨_, _, rfl⟩ | ⟨_, _, rfl⟩ |
    ⟨_, _, rfl⟩
  · exact ⟨List.prefix_refl _, fun hne => absurd rfl hne⟩
  · exact ⟨List.prefix_append _ _, fun _ => by simp [stageApply]⟩
  · exact ⟨List.prefix_append _ _, fun _ => by simp [stageApply]⟩
  · exact ⟨List.prefix_append _ _, fun _ => by simp [stageApply]⟩

/-- Claim C7 witness: the append-only theorem applied across a concrete
create step, at the untouched seeded task. -/
theorem C7_log_append_only_witness :
    initialTask1.logs <+: initialTask1.logs ∧
    (initialTask1.status ≠ initialTask1.status →
      initialTask1.logs.length < initialTask1.logs.length) :=
  C7_log_append_only initialState Relation.ReflTransGen.refl
    (createTask "ws_1" "a.m4a" 5 initialState).2
    (Step.create "ws_1" "a.m4a" 5 initialState)
    initialTask1 (by decide) initialTask1 (by decide) rfl

end CantoMeet
